import Mathlib

/-!
Verification development for the UI compilation module of the
anki-addon-builder repository (`aab/ui.py`, class `UIBuilder`).

The Python source is shallowly embedded: pure string manipulation becomes
Lean functions on `String` / `List Char`, the filesystem becomes an explicit
record of directory contents, external collaborators (`which`, `call_shell`)
become an environment record of functions, and a Python exception becomes an
explicit error value that is threaded through the orchestrator.
-/

namespace Aab

/-- The configuration / template values assembled by
`UIBuilder._get_format_dict`: `display_name`, `author`, `contact`,
`__title__`, `__version__` and the computed `years` string. -/
structure FormatDict where
  display_name : String
  author : String
  contact : String
  title : String
  version : String
  years : String
deriving DecidableEq, Repr

/-- The copyright-years logic of `UIBuilder._get_format_dict`:
`start_year = config.get("copyright_start")` (`none` models a missing key),
and Python's truthiness test `if start_year and start_year != now` makes the
year `0` behave like an unset year. -/
def format_years (start_year : Option Nat) (now : Nat) : String :=
  match start_year with
  | none => toString now
  | some s => if s ≠ 0 ∧ s ≠ now then toString s ++ "-" ++ toString now else toString now

/-- The `_template_header` string of `aab/ui.py`, with the `{...}` placeholders already
interpolated from the format dict (Python's `_template_header.format(**d)`). -/
def template_header (d : FormatDict) : String :=
  "# -*- coding: utf-8 -*-\n" ++
  "#\n" ++
  "# " ++ d.display_name ++ " Add-on for Anki\n" ++
  "# Copyright (C)  " ++ d.years ++ " " ++ d.author ++ " <" ++ d.contact ++ ">\n" ++
  "#\n" ++
  "# This file was automatically generated by " ++ d.title ++ " v" ++ d.version ++ "\n" ++
  "# It is subject to the same licensing terms as the rest of the program\n" ++
  "# (see the LICENSE file which accompanies this program).\n" ++
  "#\n" ++
  "# WARNING! All changes made in this file will be lost!\n" ++
  "\n" ++
  "\"\"\"\n" ++
  "Initializes generated Qt forms/resources\n" ++
  "\"\"\""

/-- The generator expression inside `UIBuilder._generate_all_str`:
`'    "{}"'.format(m) for m in modules`. -/
def all_entries (modules : List String) : List String :=
  modules.map (fun m => "    \"" ++ m ++ "\"")

/-- Embedding of `UIBuilder._generate_all_str`: the `__all__` manifest,
`_template_all.format(",\n".join(...))`. -/
def generate_all_str (modules : List String) : String :=
  "__all__ = [\n" ++ String.intercalate ",\n" (all_entries modules) ++ "\n]"

/-- The generator expression inside `UIBuilder._generate_import_str`:
`'from . import {}'.format(m) for m in modules`. -/
def import_lines (modules : List String) : List String :=
  modules.map (fun m => "from . import " ++ m)

/-- Embedding of `UIBuilder._generate_import_str`: `"\n".join(...)`. -/
def generate_import_str (modules : List String) : String :=
  String.intercalate "\n" (import_lines modules)

/-- The file content written by `UIBuilder._write_init_file`:
`init = "\n\n".join((header, all_str, import_str)) + "\n"`. -/
def write_init_content (modules : List String) (d : FormatDict) : String :=
  String.intercalate "\n\n"
    [template_header d, generate_all_str modules, generate_import_str modules] ++ "\n"

/-! ### The form munger (`UIBuilder._re_munge` and `UIBuilder._munge_form`) -/

/-- Decompose a character stream into lines: each entry holds the line's
characters (never containing a newline) and whether the line is terminated by
a `'\n'` in the stream (only the final line can be unterminated). -/
def splitLinesKeep : List Char → List (List Char × Bool)
  | [] => []
  | c :: cs =>
    if c = '\n' then ([], true) :: splitLinesKeep cs
    else
      match splitLinesKeep cs with
      | [] => [([c], false)]
      | (l, b) :: rest => (c :: l, b) :: rest

/-- Reassemble the line decomposition into the character stream. -/
def joinLinesKeep : List (List Char × Bool) → List Char
  | [] => []
  | (l, b) :: rest => l ++ (if b then ['\n'] else []) ++ joinLinesKeep rest

/-- Whether one full line is matched by `UIBuilder._re_munge`, the multiline
regex `^import .+?_rc(\n)?$`: the `^`/`$` anchors force the match to cover a
whole line, so a line is matched exactly when it begins with `"import "`,
ends with `"_rc"`, and the `.+?` group is non-empty (total length ≥ 11). -/
def lineMatchesRcImport (l : List Char) : Bool :=
  decide (11 ≤ l.length) && decide (l.take 7 = "import ".data) &&
    decide (l.drop (l.length - 3) = "_rc".data)

/-- The effect of `UIBuilder._re_munge.sub("", form)` on the line
decomposition.  A matching line's text is removed; the greedy optional group
`(\n)?` consumes the line's terminating newline only when `$` still matches
after it, i.e. when the newline ends the input or is directly followed by
another newline (an empty line); otherwise the group backtracks to empty and
the newline survives, leaving an empty line.  Substitution then resumes after
the match, and non-matching lines (in particular empty lines, which are
shorter than `import ..._rc`) are copied unchanged. -/
def mungeLines : List (List Char × Bool) → List (List Char × Bool)
  | [] => []
  | (l, term) :: rest =>
    if lineMatchesRcImport l then
      if term then
        match rest with
        | [] => []
        | ([], b) :: rest2 => ([], b) :: mungeLines rest2
        | (l2, b) :: rest2 => ([], true) :: mungeLines ((l2, b) :: rest2)
      else mungeLines rest
    else (l, term) :: mungeLines rest

/-- Embedding of `UIBuilder._munge_form`: the file content is read in full, rewritten as
`_re_munge.sub("", form)`, and written back with `seek(0)` / `truncate()`,
so the resulting file content is exactly the substitution result. -/
def munge (s : String) : String :=
  ⟨joinLinesKeep (mungeLines (splitLinesKeep s.data))⟩

/-! ### Output path computation (`Path(path_out / new_stem).with_suffix(".py")`) -/

/-- Index of the last `'.'` in a character list (Python's `str.rfind('.')`,
with `none` standing for "not found"). -/
def rfindDot : List Char → Option Nat
  | [] => none
  | c :: cs =>
    match rfindDot cs with
    | some i => some (i + 1)
    | none => if c = '.' then some 0 else none

/-- Python's `pathlib.PurePath.with_suffix(".py")` on a file name: CPython's
`PurePath.suffix` is the part of the name from its last dot on, provided that
dot is neither the first nor the last character (`0 < i < len(name) - 1`);
`with_suffix` strips a non-empty current suffix and appends `".py"`, and
appends `".py"` directly when the current suffix is empty. -/
def with_suffix_py (name : String) : String :=
  match rfindDot name.data with
  | some i =>
    if 0 < i ∧ i < name.data.length - 1 then String.mk (name.data.take i) ++ ".py"
    else name ++ ".py"
  | none => name ++ ".py"

/-- Python's `pathlib.PurePath.stem`: the final path component with its (possibly
empty) pathlib suffix removed. -/
def stem (name : String) : String :=
  match rfindDot name.data with
  | some i =>
    if 0 < i ∧ i < name.data.length - 1 then String.mk (name.data.take i)
    else name
  | none => name

/-! ### The build driver (`UIBuilder.build` and `UIBuilder._build`) -/

/-- The two artifact categories of `UIBuilder._types`, in `_paths` /
`_types` iteration order (forms first). -/
inductive FileType
  | forms
  | resources
deriving DecidableEq, Repr

/-- The `_types[...]["pattern"]` glob (`*.ui` / `*.qrc`), reduced to the extension the
glob requires: fnmatch's `*` matches any (possibly empty) run of
characters, so `*.<ext>` matches exactly the names ending in `.<ext>`. -/
def patternExt : FileType → String
  | .forms => ".ui"
  | .resources => ".qrc"

/-- The `_types[...]["tool"]` base name. -/
def toolBase : FileType → String
  | .forms => "pyuic"
  | .resources => "pyrcc"

/-- The `_types[...]["post_build"]` hook: `"_munge_form"` for forms (resolved by
`getattr`), `None` for resources. -/
def hasPostBuild : FileType → Bool
  | .forms => true
  | .resources => false

/-- The `_types[...]["suffix"]` value. -/
def typeSuffix : FileType → String
  | .forms => ""
  | .resources => "_rc"

/-- Embedding of `UIBuilder._pyqt_version`; `none` models the `KeyError` that
`self._pyqt_version[target]` raises for an unknown target. -/
def pyqt_version (target : String) : Option String :=
  if target = "anki21" then some "5"
  else if target = "anki20" then some "4"
  else none

/-- Whether a file name matches the category's glob pattern. -/
def globMatch (ft : FileType) (name : String) : Bool :=
  (patternExt ft).data.isSuffixOf name.data

/-- The name computed by `Path(path_out / new_stem).with_suffix(".py")`: the bare
file name inside the output directory. -/
def outName (sfx inFile : String) : String :=
  with_suffix_py (stem inFile ++ sfx)

/-- A directory's files: an association list of name ↦ content in creation
order. -/
abbrev Dir := List (String × String)

/-- Writing a file: `open(path, "w")` truncates and rewrites an existing
entry of that name in place, otherwise appends a new entry. -/
def writeFile (d : Dir) (name content : String) : Dir :=
  if name ∈ d.map Prod.fst then
    d.map (fun p => if p.1 = name then (name, content) else p)
  else d ++ [(name, content)]

/-- Reading a file's content (`none` when no such file exists). -/
def readFile (d : Dir) (name : String) : Option String :=
  (d.find? (fun p => p.1 == name)).map Prod.snd

/-- Modelled from the spec: the external collaborators consumed by
`UIBuilder._build`, whose implementations (`aab.utils.call_shell`,
`whichcraft.which`) are outside the embedded source.  `whichOk` is the
executable locator (`which(name)` being non-`None`); `compile tool inFile` is
the content the compiler subprocess run by
`call_shell("{tool} {in_file} -o {out_file}")` writes to its `-o` output
file, with `none` modelling a failed invocation — per the spec `call_shell`
blocks until the process exits and raises/fails on non-zero exit. -/
structure Env where
  whichOk : String → Bool
  compile : String → String → Option String

/-- The exception that can escape `_build`: the `KeyError` of the
`_pyqt_version` lookup, or the failure `call_shell` raises. -/
inductive BuildErr
  | unknownTarget
  | shellFailed
deriving DecidableEq, Repr

/-- Outcome of `_build` for one category: returned `False` (skipped),
returned `True` (built), or an exception propagated. -/
inductive CatResult
  | skipped
  | built
  | errored (e : BuildErr)
deriving DecidableEq, Repr

/-- The `for in_file in ui_files` loop of `UIBuilder._build`: compile each
input in discovery order (the tool writing the `-o` output file), apply the
post-build munge to that file for forms, and record the module name.  A
failed invocation raises immediately: the files already written stay on
disk, the remaining inputs are not processed, and no further module is
recorded. -/
def buildLoop (env : Env) (tool : String) (post : Bool) (sfx : String) :
    List String → Dir → List String → Dir × List String × Option BuildErr
  | [], files, modules => (files, modules, none)
  | inFile :: rest, files, modules =>
    match env.compile tool inFile with
    | none => (files, modules, some .shellFailed)
    | some content =>
      let files1 := writeFile files (outName sfx inFile) content
      let files2 :=
        if post then
          match readFile files1 (outName sfx inFile) with
          | some c => writeFile files1 (outName sfx inFile) (munge c)
          | none => files1
        else files1
      buildLoop env tool post sfx rest files2 (modules ++ [stem inFile ++ sfx])

/-- The content an input file ends up with in the output directory: the
compiler's output, munged for forms. -/
def finalContent (env : Env) (tool : String) (post : Bool) (inFile : String) :
    String :=
  if post then munge ((env.compile tool inFile).getD "")
  else (env.compile tool inFile).getD ""

/-- Embedding of `UIBuilder._build` for one category: resolve the tool name (the
`KeyError` for an unknown target propagates before anything is touched),
return `False` when the tool is not on the search path or no input file
matches the glob (output directory untouched), and otherwise delete and
recreate the output directory, run the compilation loop, and write the
aggregator `__init__.py`. -/
def buildCat (env : Env) (d : FormatDict) (ft : FileType) (target : String)
    (inFiles : List String) (outDir : Option Dir) : Option Dir × CatResult :=
  match pyqt_version target with
  | none => (outDir, .errored .unknownTarget)
  | some nr =>
    let tool := toolBase ft ++ nr
    if env.whichOk tool = false then (outDir, .skipped)
    else
      let ui_files := inFiles.filter (fun f => globMatch ft f)
      if ui_files = [] then (outDir, .skipped)
      else
        match buildLoop env tool (hasPostBuild ft) (typeSuffix ft) ui_files [] [] with
        | (files, _, some e) => (some files, .errored e)
        | (files, modules, none) =>
          (some (writeFile files "__init__.py" (write_init_content modules d)),
           .built)

/-- One iteration of the `for filetype, paths in self._paths.items()` loop of
`UIBuilder.build`: a missing input directory (`inOpt = none`) skips the
category with a warning (`continue`), otherwise `_build` runs; its boolean
return value is ignored and an exception propagates. -/
def stepCat (env : Env) (d : FormatDict) (target : String) (ft : FileType)
    (inOpt : Option (List String)) (outOpt : Option Dir) :
    Option Dir × Option BuildErr :=
  match inOpt with
  | none => (outOpt, none)
  | some files =>
    match buildCat env d ft target files outOpt with
    | (o, .errored e) => (o, some e)
    | (o, _) => (o, none)

/-- The filesystem as seen by one `build` pass: the two input directories
(`<root>/designer`, `<root>/resources`; `none` = missing, otherwise the file
names in discovery order) and the two per-target output directories
(`<root>/src/<module>/gui/forms/<target>` and `.../gui/resources/<target>`;
`none` = not present). -/
structure FileSys where
  formsIn : Option (List String)
  resourcesIn : Option (List String)
  formsOut : Option Dir
  resourcesOut : Option Dir
deriving DecidableEq, Repr

/-- Embedding of `UIBuilder.build`: iterate the categories in `_paths` order (forms, then
resources); an exception aborts the remainder of the pass. -/
def build (env : Env) (d : FormatDict) (target : String) (fs : FileSys) :
    FileSys × Option BuildErr :=
  match stepCat env d target .forms fs.formsIn fs.formsOut with
  | (o1, some e) => ({ fs with formsOut := o1 }, some e)
  | (o1, none) =>
    match stepCat env d target .resources fs.resourcesIn fs.resourcesOut with
    | (o2, e2) => ({ fs with formsOut := o1, resourcesOut := o2 }, e2)

/-- A concrete environment for witnesses: every tool is found and every
compilation succeeds, producing a small form with a resource-import line. -/
def sampleEnv : Env :=
  ⟨fun _ => true, fun _ _ => some "import stub_rc\nok = 1\n"⟩

/-- A concrete environment for witnesses in which compiling `b.ui` fails. -/
def sampleEnvFail : Env :=
  ⟨fun _ => true, fun _ g => if g = "b.ui" then none else some "ok = 1\n"⟩

/-- A concrete format context for witnesses. -/
def sampleDict : FormatDict :=
  ⟨"Demo", "Author", "author@example.com", "aab", "0.1.0", "2019"⟩

/-- A concrete filesystem for witnesses. -/
def sampleFS : FileSys := ⟨some ["a.ui"], some ["r.qrc"], none, none⟩

/-- The directory contents a fully successful category build produces: one
compiled file per matched input, in discovery order, plus the aggregator. -/
def expectedFiles (env : Env) (tool : String) (ft : FileType)
    (matched : List String) (d : FormatDict) : Dir :=
  matched.map (fun f => (stem f ++ typeSuffix ft ++ ".py",
    finalContent env tool (hasPostBuild ft) f)) ++
    [("__init__.py",
      write_init_content (matched.map (fun f => stem f ++ typeSuffix ft)) d)]

/-! ### Theorems -/

/-! ### String cancellation helpers -/

theorem string_append_data (a b : String) : (a ++ b).data = a.data ++ b.data := rfl

theorem string_append_left_cancel {p a b : String} (h : p ++ a = p ++ b) : a = b := by
  have hd : p.data ++ a.data = p.data ++ b.data := by
    have := congrArg String.data h
    simpa [string_append_data] using this
  have : a.data = b.data := List.append_cancel_left hd
  cases a; cases b; exact congrArg String.mk this

theorem string_append_right_cancel {s a b : String} (h : a ++ s = b ++ s) : a = b := by
  have hd : a.data ++ s.data = b.data ++ s.data := by
    have := congrArg String.data h
    simpa [string_append_data] using this
  have : a.data = b.data := List.append_cancel_right hd
  cases a; cases b; exact congrArg String.mk this

theorem all_entry_injective :
    Function.Injective (fun m => "    \"" ++ m ++ "\"" : String → String) := by
  intro a b h
  simp only at h
  exact string_append_left_cancel (string_append_right_cancel
    (by simpa [String.append_assoc] using h))

theorem import_line_injective :
    Function.Injective (fun m => "from . import " ++ m : String → String) := by
  intro a b h
  simp only at h
  exact string_append_left_cancel h

/-- C1: the generated aggregator (`__init__`) file content is exactly three
sections joined by one blank line each plus a single trailing newline: the
interpolated header banner, the `__all__` list-of-strings assignment (one
module per line, comma-separated, each quoted), and one
`from . import <module>` statement per module; both the manifest and
the import list are the image of the input module list in order, and (the input
list having no duplicates) contain each module exactly once. -/
theorem init_file_structure (modules : List String) (d : FormatDict)
    (h : modules.Nodup) :
    write_init_content modules d =
      template_header d ++ "\n\n" ++ generate_all_str modules ++ "\n\n" ++
        generate_import_str modules ++ "\n" ∧
    generate_all_str modules =
      "__all__ = [\n" ++ String.intercalate ",\n" (all_entries modules) ++ "\n]" ∧
    all_entries modules = modules.map (fun m => "    \"" ++ m ++ "\"") ∧
    import_lines modules = modules.map (fun m => "from . import " ++ m) ∧
    ∀ m ∈ modules,
      (all_entries modules).count ("    \"" ++ m ++ "\"") = 1 ∧
      (import_lines modules).count ("from . import " ++ m) = 1 := by
  refine ⟨rfl, rfl, rfl, rfl, fun m hm => ⟨?_, ?_⟩⟩
  · have := List.count_map_of_injective modules
      (fun m => "    \"" ++ m ++ "\"") all_entry_injective m
    rw [all_entries, this]
    exact List.count_eq_one_of_mem h hm
  · have := List.count_map_of_injective modules
      (fun m => "from . import " ++ m) import_line_injective m
    rw [import_lines, this]
    exact List.count_eq_one_of_mem h hm

theorem init_file_structure_witness :
    (all_entries ["alpha", "beta"]).count ("    \"" ++ "alpha" ++ "\"") = 1 ∧
    (import_lines ["alpha", "beta"]).count ("from . import " ++ "beta") = 1 :=
  ⟨((init_file_structure ["alpha", "beta"] ⟨"d", "a", "c", "t", "v", "y"⟩
      (by decide)).2.2.2.2 "alpha" (by decide)).1,
   ((init_file_structure ["alpha", "beta"] ⟨"d", "a", "c", "t", "v", "y"⟩
      (by decide)).2.2.2.2 "beta" (by decide)).2⟩

/-- C5: the formatted copyright year range is `"{start}-{now}"` when a
(positive) start year is configured and differs from the current year, and
`"{now}"` when the start year is absent or equals the current year; an absent
start year never causes a failure (`format_years` is total on `none`). -/
theorem format_years_spec (now : Nat) :
    format_years none now = toString now ∧
    ∀ s : Nat, 0 < s →
      (s = now → format_years (some s) now = toString now) ∧
      (s ≠ now → format_years (some s) now =
        toString s ++ "-" ++ toString now) := by
  refine ⟨rfl, fun s hs => ⟨fun heq => ?_, fun hne => ?_⟩⟩
  · simp [format_years, heq]
  · simp [format_years, hne, Nat.pos_iff_ne_zero.mp hs]

theorem format_years_spec_witness :
    format_years none 2024 = "2024" ∧
    format_years (some 2024) 2024 = "2024" ∧
    format_years (some 2016) 2019 = "2016-2019" :=
  ⟨(format_years_spec 2024).1,
   ((format_years_spec 2024).2 2024 (by decide)).1 rfl,
   ((format_years_spec 2019).2 2016 (by decide)).2 (by decide)⟩

theorem splitLinesKeep_eq_nil {cs : List Char} (h : splitLinesKeep cs = []) :
    cs = [] := by
  cases cs with
  | nil => rfl
  | cons c cs =>
    by_cases hc : c = '\n'
    · simp [splitLinesKeep, hc] at h
    · simp only [splitLinesKeep, hc, if_false] at h
      cases hsp : splitLinesKeep cs with
      | nil => rw [hsp] at h; simp at h
      | cons p rest => rw [hsp] at h; cases p; simp at h

theorem joinLinesKeep_splitLinesKeep (cs : List Char) :
    joinLinesKeep (splitLinesKeep cs) = cs := by
  induction cs with
  | nil => rfl
  | cons c cs ih =>
    by_cases hc : c = '\n'
    · subst hc; simp [splitLinesKeep, joinLinesKeep, ih]
    · simp only [splitLinesKeep, hc, if_false]
      cases hsp : splitLinesKeep cs with
      | nil =>
        have : cs = [] := splitLinesKeep_eq_nil hsp
        subst this
        simp [joinLinesKeep]
      | cons p rest =>
        obtain ⟨l, b⟩ := p
        rw [hsp] at ih
        simp only [joinLinesKeep, List.cons_append] at ih ⊢
        rw [ih]

theorem mungeLines_match_last {l : List Char} (hl : lineMatchesRcImport l = true) :
    mungeLines [(l, true)] = [] := by
  simp [mungeLines, hl]

theorem mungeLines_match_before_empty {l : List Char}
    (hl : lineMatchesRcImport l = true) (b : Bool)
    (rest : List (List Char × Bool)) :
    mungeLines ((l, true) :: ([], b) :: rest) = ([], b) :: mungeLines rest := by
  simp [mungeLines, hl]

theorem mungeLines_match_before_nonempty {l l2 : List Char}
    (hl : lineMatchesRcImport l = true) (hne : l2 ≠ []) (b : Bool)
    (rest : List (List Char × Bool)) :
    mungeLines ((l, true) :: (l2, b) :: rest) =
      ([], true) :: mungeLines ((l2, b) :: rest) := by
  cases l2 with
  | nil => exact absurd rfl hne
  | cons c l2 => simp [mungeLines, hl]

theorem mungeLines_match_unterminated {l : List Char}
    (hl : lineMatchesRcImport l = true) (rest : List (List Char × Bool)) :
    mungeLines ((l, false) :: rest) = mungeLines rest := by
  rw [mungeLines.eq_def]
  simp [hl]

theorem mungeLines_keep {l : List Char} (hl : lineMatchesRcImport l = false)
    (b : Bool) (rest : List (List Char × Bool)) :
    mungeLines ((l, b) :: rest) = (l, b) :: mungeLines rest := by
  rw [mungeLines.eq_def]
  simp [hl]

/-- Every line of the substitution output fails the regex: matched lines are
dropped or replaced by empty lines, unmatched lines are copied. -/
theorem mungeLines_no_match (ls : List (List Char × Bool)) :
    ∀ p ∈ mungeLines ls, lineMatchesRcImport p.1 = false := by
  induction ls using mungeLines.induct with
  | case1 => intro p hp; simp [mungeLines] at hp
  | case2 l hl => intro p hp; rw [mungeLines_match_last hl] at hp; simp at hp
  | case3 l hl b rest2 ih =>
    intro p hp
    rw [mungeLines_match_before_empty hl] at hp
    rcases List.mem_cons.mp hp with h | h
    · subst h; rfl
    · exact ih p h
  | case4 l hl l2 b rest2 hne ih =>
    intro p hp
    rw [mungeLines_match_before_nonempty hl (fun h => hne h) b rest2] at hp
    rcases List.mem_cons.mp hp with h | h
    · subst h; rfl
    · exact ih p h
  | case5 l b rest hl hb ih =>
    intro p hp
    have hb' : b = false := by cases b <;> simp_all
    subst hb'
    rw [mungeLines_match_unterminated hl] at hp
    exact ih p hp
  | case6 l b rest hl ih =>
    intro p hp
    have hl' : lineMatchesRcImport l = false := by
      cases h : lineMatchesRcImport l <;> simp_all
    rw [mungeLines_keep hl'] at hp
    rcases List.mem_cons.mp hp with h | h
    · subst h; exact hl'
    · exact ih p h

/-- If no line of the file matches the regex, the substitution changes
nothing. -/
theorem mungeLines_id_of_no_match (ls : List (List Char × Bool))
    (h : ∀ p ∈ ls, lineMatchesRcImport p.1 = false) : mungeLines ls = ls := by
  induction ls with
  | nil => rfl
  | cons p rest ih =>
    obtain ⟨l, b⟩ := p
    have hl : lineMatchesRcImport l = false := h (l, b) (List.mem_cons_self _ _)
    rw [mungeLines_keep hl, ih (fun q hq => h q (List.mem_cons_of_mem _ hq))]

/-- C4 counterexample: on a file containing the line `import foo_rc`
followed by non-empty content, the substitution keeps the matched line's
terminating newline (the `(\n)?` group backtracks so that `$` matches before
the newline), so the written-back file is "\nx = 1\n" — an empty line
remains — and not the "x = 1\n" that removing exactly that line would
produce. -/
theorem munge_example_keeps_newline :
    munge "import foo_rc\nx = 1\n" = "\nx = 1\n" ∧
    munge "import foo_rc\nx = 1\n" ≠ "x = 1\n" := by
  exact ⟨by decide, by decide⟩

/-- C4 (amended): the munging step removes the text of every full line
matching `^import .+?_rc$` (no line of the written-back content matches the
pattern any more), removing the matched line's trailing newline only when the
match ends at end of file or is followed by an empty line; if no line
matches, the written-back content is byte-identical to the original; applied
to a file containing the line `import foo_rc` followed by non-empty content,
it removes that line's text but keeps its newline (an empty line remains) and
leaves all other lines byte-identical. -/
theorem munge_spec (s : String) :
    (∀ p ∈ mungeLines (splitLinesKeep s.data), lineMatchesRcImport p.1 = false) ∧
    ((∀ p ∈ splitLinesKeep s.data, lineMatchesRcImport p.1 = false) →
      munge s = s) ∧
    munge "import foo_rc\nx = 1\n" = "\nx = 1\n" := by
  refine ⟨mungeLines_no_match _, fun h => ?_, by decide⟩
  show String.mk (joinLinesKeep (mungeLines (splitLinesKeep s.data))) = s
  rw [mungeLines_id_of_no_match _ h, joinLinesKeep_splitLinesKeep]

theorem munge_spec_witness :
    munge "a = 1\nimport foo\n" = "a = 1\nimport foo\n" :=
  (munge_spec "a = 1\nimport foo\n").2.1 (by decide)

/-- C10: the terminating newline of a matched `import ..._rc` line is removed
only when the match ends at end of file or is immediately followed by another
newline (an empty line); for a matched line followed by a non-empty line only
the line's text is removed and its newline is kept, so an empty line remains
at that position; since non-matching lines pass through unchanged, this holds
at every position of the file. -/
theorem munge_newline_policy (l l2 : List Char) (b : Bool)
    (rest : List (List Char × Bool)) (hl : lineMatchesRcImport l = true) :
    mungeLines [(l, true)] = [] ∧
    mungeLines ((l, true) :: ([], b) :: rest) = ([], b) :: mungeLines rest ∧
    (l2 ≠ [] →
      mungeLines ((l, true) :: (l2, b) :: rest) =
        ([], true) :: mungeLines ((l2, b) :: rest)) ∧
    (lineMatchesRcImport l2 = false →
      mungeLines ((l2, b) :: rest) = (l2, b) :: mungeLines rest) :=
  ⟨mungeLines_match_last hl,
   mungeLines_match_before_empty hl b rest,
   fun hne => mungeLines_match_before_nonempty hl hne b rest,
   fun h2 => mungeLines_keep h2 b rest⟩

theorem munge_newline_policy_witness :
    mungeLines (("import foo_rc".data, true) :: ("x = 1".data, true) :: []) =
      ([], true) :: mungeLines [("x = 1".data, true)] :=
  (munge_newline_policy "import foo_rc".data "x = 1".data true []
    (by decide)).2.2.1 (by decide)

theorem rfindDot_eq_none {cs : List Char} (h : '.' ∉ cs) : rfindDot cs = none := by
  induction cs with
  | nil => rfl
  | cons c cs ih =>
    have hc : ¬c = '.' := by rintro rfl; exact h (List.mem_cons_self _ _)
    simp only [rfindDot, ih (fun hm => h (List.mem_cons_of_mem _ hm)), hc, if_false]

/-- C9 counterexample: the input file `.foo.ui` has pathlib stem `.foo`
(forms add an empty suffix); its only dot is the leading character, so
pathlib regards the name as having no suffix and `with_suffix(".py")`
appends, producing `.foo.py` — not the `.py` that replacing the text after
the last dot, as the claim states for every stem containing a dot, would
produce. -/
theorem with_suffix_py_counterexample :
    stem ".foo.ui" = ".foo" ∧
    with_suffix_py (stem ".foo.ui" ++ "") = ".foo.py" ∧
    with_suffix_py (stem ".foo.ui" ++ "") ≠ ".py" := by
  exact ⟨by decide, by decide, by decide⟩

/-- C9 (amended): the compiled output name is `with_suffix(".py")` applied to
stem + category suffix.  When the name contains no dot, `.py` is appended;
when the name's last dot lies strictly inside the name (neither first nor
last character), the text from that dot on is replaced by `.py`; when the
last dot is the leading character or only the final character position,
pathlib treats the current suffix as empty and appends `.py`.  Consequently
distinct stems such as `a.b` and `a.c` yield the same output name `a.py`. -/
theorem with_suffix_py_spec (name : String) :
    ('.' ∉ name.data → with_suffix_py name = name ++ ".py") ∧
    (∀ i, rfindDot name.data = some i → 0 < i → i < name.data.length - 1 →
      with_suffix_py name = String.mk (name.data.take i) ++ ".py") ∧
    (∀ i, rfindDot name.data = some i → (i = 0 ∨ name.data.length - 1 ≤ i) →
      with_suffix_py name = name ++ ".py") ∧
    with_suffix_py "a.b" = "a.py" ∧ with_suffix_py "a.c" = "a.py" ∧
    ("a.b" : String) ≠ "a.c" := by
  refine ⟨fun h => ?_, fun i hi h0 h1 => ?_, fun i hi hor => ?_,
    by decide, by decide, by decide⟩
  · simp only [with_suffix_py, rfindDot_eq_none h]
  · simp only [with_suffix_py, hi]
    rw [if_pos ⟨h0, h1⟩]
  · simp only [with_suffix_py, hi]
    rw [if_neg]
    rintro ⟨hpos, hlt⟩
    rcases hor with h0 | h1
    · exact absurd h0 (Nat.pos_iff_ne_zero.mp hpos)
    · exact absurd hlt (Nat.not_lt.mpr h1)

theorem with_suffix_py_spec_witness :
    with_suffix_py "main" = "main" ++ ".py" ∧
    with_suffix_py "ab.cd.ef" = String.mk ("ab.cd.ef".data.take 5) ++ ".py" ∧
    with_suffix_py ".foo" = ".foo" ++ ".py" :=
  ⟨(with_suffix_py_spec "main").1 (by decide),
   (with_suffix_py_spec "ab.cd.ef").2.1 5 (by decide) (by decide) (by decide),
   (with_suffix_py_spec ".foo").2.2.1 0 (by decide) (Or.inl rfl)⟩

/-! ### Directory and loop lemmas -/

theorem with_suffix_py_no_dot {name : String} (h : '.' ∉ name.data) :
    with_suffix_py name = name ++ ".py" := by
  simp only [with_suffix_py, rfindDot_eq_none h]

theorem outName_no_dot {sfx inFile : String}
    (h : '.' ∉ (stem inFile ++ sfx).data) :
    outName sfx inFile = stem inFile ++ sfx ++ ".py" :=
  with_suffix_py_no_dot h

theorem writeFile_fresh {d : Dir} {n : String} (h : n ∉ d.map Prod.fst)
    (c : String) : writeFile d n c = d ++ [(n, c)] := by
  simp [writeFile, h]

theorem readFile_append_fresh {d : Dir} {n : String} (h : n ∉ d.map Prod.fst)
    (c : String) : readFile (d ++ [(n, c)]) n = some c := by
  induction d with
  | nil => simp [readFile]
  | cons p d ih =>
    have hp : ¬p.1 = n := fun he => h (by simp [he])
    have ih' := ih (fun hm => h (List.mem_cons_of_mem _ hm))
    simp only [readFile, List.cons_append, List.find?] at ih' ⊢
    rw [show (p.1 == n) = false from beq_eq_false_iff_ne.mpr hp]
    exact ih'

theorem writeFile_append_mem {d : Dir} {n : String} (h : n ∉ d.map Prod.fst)
    (c c' : String) : writeFile (d ++ [(n, c)]) n c' = d ++ [(n, c')] := by
  have hm : n ∈ (d ++ [(n, c)]).map Prod.fst := by simp
  rw [writeFile, if_pos hm, List.map_append]
  congr 1
  · refine (List.map_congr_left fun p hp => ?_).trans (List.map_id d)
    have : ¬p.1 = n := fun he => h (he ▸ List.mem_map_of_mem Prod.fst hp)
    simp [this]
  · simp

/-- One successful iteration of the loop adds exactly one file, with the
munged content for forms. -/
theorem buildLoop_step (env : Env) (tool : String) (post : Bool)
    (sfx : String) (inFile : String) (rest : List String) (files : Dir)
    (modules : List String) (c : String)
    (hc : env.compile tool inFile = some c)
    (hfresh : outName sfx inFile ∉ files.map Prod.fst) :
    buildLoop env tool post sfx (inFile :: rest) files modules =
      buildLoop env tool post sfx rest
        (files ++ [(outName sfx inFile, finalContent env tool post inFile)])
        (modules ++ [stem inFile ++ sfx]) := by
  simp only [buildLoop, hc]
  congr 1
  rw [writeFile_fresh hfresh]
  cases post with
  | false => simp [finalContent, hc]
  | true =>
    simp only [if_true]
    rw [readFile_append_fresh hfresh]
    show writeFile (files ++ [(outName sfx inFile, c)]) (outName sfx inFile)
      (munge c) = _
    rw [writeFile_append_mem hfresh]
    simp [finalContent, hc]

/-- Running the loop over a prefix whose compilations all succeed and whose
output names are fresh and pairwise distinct appends exactly those files and
modules, in order. -/
theorem buildLoop_append (env : Env) (tool : String) (post : Bool)
    (sfx : String) (pre : List String) :
    ∀ (rest : List String) (files : Dir) (modules : List String),
    (∀ f ∈ pre, (env.compile tool f).isSome = true) →
    (pre.map (outName sfx)).Nodup →
    (∀ f ∈ pre, outName sfx f ∉ files.map Prod.fst) →
    buildLoop env tool post sfx (pre ++ rest) files modules =
      buildLoop env tool post sfx rest
        (files ++ pre.map (fun f => (outName sfx f, finalContent env tool post f)))
        (modules ++ pre.map (fun f => stem f ++ sfx)) := by
  induction pre with
  | nil => intro rest files modules _ _ _; simp
  | cons f pre ih =>
    intro rest files modules hok hnd hfresh
    obtain ⟨c, hc⟩ := Option.isSome_iff_exists.mp (hok f (List.mem_cons_self _ _))
    rw [List.cons_append,
      buildLoop_step env tool post sfx f (pre ++ rest) files modules c hc
        (hfresh f (List.mem_cons_self _ _)),
      ih rest _ _ (fun g hg => hok g (List.mem_cons_of_mem _ hg))
        (List.Nodup.of_cons hnd)
        (fun g hg => ?_)]
    · simp
    · simp only [List.map_append, List.map_cons, List.map_nil]
      intro hmem
      rcases List.mem_append.mp hmem with hm | hm
      · exact hfresh g (List.mem_cons_of_mem _ hg) hm
      · have : outName sfx g = outName sfx f := by simpa using hm
        have hne : outName sfx f ∉ pre.map (outName sfx) :=
          (List.nodup_cons.mp hnd).1
        exact hne (this ▸ List.mem_map_of_mem (outName sfx) hg)

theorem buildCat_built (env : Env) (d : FormatDict) (ft : FileType)
    (target nr : String) (inFiles : List String) (outDir : Option Dir)
    (F : Dir) (M : List String)
    (hnr : pyqt_version target = some nr)
    (htool : env.whichOk (toolBase ft ++ nr) = true)
    (hne : inFiles.filter (fun f => globMatch ft f) ≠ [])
    (hloop : buildLoop env (toolBase ft ++ nr) (hasPostBuild ft) (typeSuffix ft)
      (inFiles.filter (fun f => globMatch ft f)) [] [] = (F, M, none)) :
    buildCat env d ft target inFiles outDir =
      (some (writeFile F "__init__.py" (write_init_content M d)), .built) := by
  simp only [buildCat, hnr]
  rw [if_neg (by simp [htool]), if_neg hne, hloop]

theorem buildCat_errored (env : Env) (d : FormatDict) (ft : FileType)
    (target nr : String) (inFiles : List String) (outDir : Option Dir)
    (F : Dir) (M : List String) (e : BuildErr)
    (hnr : pyqt_version target = some nr)
    (htool : env.whichOk (toolBase ft ++ nr) = true)
    (hne : inFiles.filter (fun f => globMatch ft f) ≠ [])
    (hloop : buildLoop env (toolBase ft ++ nr) (hasPostBuild ft) (typeSuffix ft)
      (inFiles.filter (fun f => globMatch ft f)) [] [] = (F, M, some e)) :
    buildCat env d ft target inFiles outDir = (some F, .errored e) := by
  simp only [buildCat, hnr]
  rw [if_neg (by simp [htool]), if_neg hne, hloop]

theorem buildCat_skip_tool (env : Env) (d : FormatDict) (ft : FileType)
    (target nr : String) (inFiles : List String) (outDir : Option Dir)
    (hnr : pyqt_version target = some nr)
    (htool : env.whichOk (toolBase ft ++ nr) = false) :
    buildCat env d ft target inFiles outDir = (outDir, .skipped) := by
  simp only [buildCat, hnr]
  rw [if_pos htool]

theorem buildCat_skip_empty (env : Env) (d : FormatDict) (ft : FileType)
    (target nr : String) (inFiles : List String) (outDir : Option Dir)
    (hnr : pyqt_version target = some nr)
    (hempty : inFiles.filter (fun f => globMatch ft f) = []) :
    buildCat env d ft target inFiles outDir = (outDir, .skipped) := by
  simp only [buildCat, hnr]
  by_cases hw : env.whichOk (toolBase ft ++ nr) = false
  · rw [if_pos hw]
  · rw [if_neg hw, if_pos hempty]

theorem buildCat_unknown (env : Env) (d : FormatDict) (ft : FileType)
    (target : String) (inFiles : List String) (outDir : Option Dir)
    (hnr : pyqt_version target = none) :
    buildCat env d ft target inFiles outDir =
      (outDir, .errored .unknownTarget) := by
  simp only [buildCat, hnr]

/-- C7: invoking the build with a target platform identifier that has no
`_pyqt_version` mapping (anything other than `anki21` and `anki20`) is fatal:
for either category `_build`'s dict lookup raises before anything is written
(output directory untouched), and whenever the pass reaches `_build` at all
(some input directory exists) the error propagates out of `build`, aborting
the entire pass with the filesystem unmodified, instead of being treated as a
recoverable skip. -/
theorem unknown_target_fatal (env : Env) (d : FormatDict) (target : String)
    (h21 : target ≠ "anki21") (h20 : target ≠ "anki20") :
    (∀ (ft : FileType) (inFiles : List String) (outDir : Option Dir),
      buildCat env d ft target inFiles outDir =
        (outDir, .errored .unknownTarget)) ∧
    (∀ fs : FileSys, fs.formsIn ≠ none ∨ fs.resourcesIn ≠ none →
      build env d target fs = (fs, some .unknownTarget)) := by
  have hnr : pyqt_version target = none := by
    simp [pyqt_version, h21, h20]
  refine ⟨fun ft inFiles outDir => buildCat_unknown env d ft target inFiles
    outDir hnr, fun fs hin => ?_⟩
  cases hf : fs.formsIn with
  | some files =>
    have hstep : stepCat env d target .forms fs.formsIn fs.formsOut =
        (fs.formsOut, some .unknownTarget) := by
      rw [hf]
      simp only [stepCat,
        buildCat_unknown env d .forms target files fs.formsOut hnr]
    simp only [build, hstep]
  | none =>
    have hr : fs.resourcesIn ≠ none := by
      rcases hin with h | h
      · exact absurd hf h
      · exact h
    cases hrr : fs.resourcesIn with
    | none => exact absurd hrr hr
    | some files =>
      have hstep1 : stepCat env d target .forms fs.formsIn fs.formsOut =
          (fs.formsOut, none) := by rw [hf]; rfl
      have hstep2 : stepCat env d target .resources fs.resourcesIn
          fs.resourcesOut = (fs.resourcesOut, some .unknownTarget) := by
        rw [hrr]
        simp only [stepCat,
          buildCat_unknown env d .resources target files fs.resourcesOut hnr]
      simp only [build, hstep1, hstep2]

/-- C3: for every category, a missing input directory, a tool not found on
the search path, or an input directory with no file matching the category's
glob pattern each cause that category's build to be skipped without an
exception: zero files are written, the category's existing output directory
(including previously built files) is left completely unmodified, and the
orchestrator continues with the next category. -/
theorem skip_conditions (env : Env) (d : FormatDict) (target nr : String)
    (ft : FileType) (hnr : pyqt_version target = some nr) :
    (∀ outOpt, stepCat env d target ft none outOpt = (outOpt, none)) ∧
    (env.whichOk (toolBase ft ++ nr) = false →
      ∀ inFiles outDir,
        buildCat env d ft target inFiles outDir = (outDir, .skipped)) ∧
    (∀ inFiles outDir, inFiles.filter (fun f => globMatch ft f) = [] →
      buildCat env d ft target inFiles outDir = (outDir, .skipped)) ∧
    (∀ files outOpt,
      buildCat env d ft target files outOpt = (outOpt, .skipped) →
      stepCat env d target ft (some files) outOpt = (outOpt, none)) ∧
    (∀ (fs : FileSys) o1,
      stepCat env d target .forms fs.formsIn fs.formsOut = (o1, none) →
      build env d target fs =
        ({ fs with
            formsOut := o1,
            resourcesOut := (stepCat env d target .resources fs.resourcesIn
              fs.resourcesOut).1 },
         (stepCat env d target .resources fs.resourcesIn
           fs.resourcesOut).2)) := by
  refine ⟨fun outOpt => rfl,
    fun hw inFiles outDir =>
      buildCat_skip_tool env d ft target nr inFiles outDir hnr hw,
    fun inFiles outDir he =>
      buildCat_skip_empty env d ft target nr inFiles outDir hnr he,
    fun files outOpt hb => by simp only [stepCat, hb],
    fun fs o1 h1 => by
      rcases hsr : stepCat env d target .resources fs.resourcesIn
        fs.resourcesOut with ⟨o2, e2⟩
      simp only [build, h1, hsr]⟩

theorem skip_conditions_witness :
    stepCat ⟨fun _ => false, fun _ _ => none⟩ ⟨"d", "a", "c", "t", "v", "y"⟩
        "anki21" .forms none (some [("old.py", "old")]) =
      (some [("old.py", "old")], none) ∧
    buildCat ⟨fun _ => false, fun _ _ => none⟩ ⟨"d", "a", "c", "t", "v", "y"⟩
        .forms "anki21" ["a.ui"] (some [("old.py", "old")]) =
      (some [("old.py", "old")], .skipped) ∧
    buildCat ⟨fun _ => false, fun _ _ => none⟩ ⟨"d", "a", "c", "t", "v", "y"⟩
        .resources "anki21" ["nothing.txt"] (some [("old.py", "old")]) =
      (some [("old.py", "old")], .skipped) :=
  ⟨(skip_conditions ⟨fun _ => false, fun _ _ => none⟩
      ⟨"d", "a", "c", "t", "v", "y"⟩ "anki21" "5" .forms (by decide)).1
      (some [("old.py", "old")]),
   (skip_conditions ⟨fun _ => false, fun _ _ => none⟩
      ⟨"d", "a", "c", "t", "v", "y"⟩ "anki21" "5" .forms (by decide)).2.1
      rfl ["a.ui"] (some [("old.py", "old")]),
   (skip_conditions ⟨fun _ => false, fun _ _ => none⟩
      ⟨"d", "a", "c", "t", "v", "y"⟩ "anki21" "5" .resources (by decide)).2.2.1
      ["nothing.txt"] (some [("old.py", "old")]) (by decide)⟩

theorem unknown_target_fatal_witness :
    buildCat ⟨fun _ => true, fun _ _ => some "x"⟩
        ⟨"d", "a", "c", "t", "v", "y"⟩ .forms "anki19" ["a.ui"] none =
      (none, .errored .unknownTarget) ∧
    build ⟨fun _ => true, fun _ _ => some "x"⟩ ⟨"d", "a", "c", "t", "v", "y"⟩
        "anki19" ⟨some ["a.ui"], some ["r.qrc"], none, none⟩ =
      (⟨some ["a.ui"], some ["r.qrc"], none, none⟩, some .unknownTarget) :=
  ⟨(unknown_target_fatal ⟨fun _ => true, fun _ _ => some "x"⟩
      ⟨"d", "a", "c", "t", "v", "y"⟩ "anki19" (by decide) (by decide)).1
      .forms ["a.ui"] none,
   (unknown_target_fatal ⟨fun _ => true, fun _ _ => some "x"⟩
      ⟨"d", "a", "c", "t", "v", "y"⟩ "anki19" (by decide) (by decide)).2
      ⟨some ["a.ui"], some ["r.qrc"], none, none⟩ (Or.inl (by simp))⟩

/-- A category that was skipped leaves the output directory argument
untouched, whatever it is. -/
theorem buildCat_skipped_out (env : Env) (d : FormatDict) (ft : FileType)
    (target : String) (inFiles : List String) (o : Option Dir)
    (ob : Option Dir) (h : buildCat env d ft target inFiles o =
      (ob, .skipped)) :
    ob = o ∧ ∀ o', buildCat env d ft target inFiles o' = (o', .skipped) := by
  rcases hnr : pyqt_version target with _ | nr
  · rw [buildCat_unknown env d ft target inFiles o hnr] at h
    have := congrArg Prod.snd h
    simp at this
  · by_cases hw : env.whichOk (toolBase ft ++ nr) = false
    · rw [buildCat_skip_tool env d ft target nr inFiles o hnr hw] at h
      exact ⟨(congrArg Prod.fst h).symm,
        fun o' => buildCat_skip_tool env d ft target nr inFiles o' hnr hw⟩
    · by_cases hempty : inFiles.filter (fun f => globMatch ft f) = []
      · rw [buildCat_skip_empty env d ft target nr inFiles o hnr hempty] at h
        exact ⟨(congrArg Prod.fst h).symm,
          fun o' => buildCat_skip_empty env d ft target nr inFiles o' hnr hempty⟩
      · have htool : env.whichOk (toolBase ft ++ nr) = true := by
          cases hx : env.whichOk (toolBase ft ++ nr) <;> simp_all
        rcases hloop : buildLoop env (toolBase ft ++ nr) (hasPostBuild ft)
            (typeSuffix ft) (inFiles.filter (fun f => globMatch ft f)) [] []
          with ⟨Fl, Ml, err⟩
        cases err with
        | some e =>
          rw [buildCat_errored env d ft target nr inFiles o Fl Ml e hnr htool
            hempty hloop] at h
          have := congrArg Prod.snd h
          simp at this
        | none =>
          rw [buildCat_built env d ft target nr inFiles o Fl Ml hnr htool
            hempty hloop] at h
          have := congrArg Prod.snd h
          simp at this

/-- A category that was (re)built produces an output directory that does not
depend on the previous output directory at all. -/
theorem buildCat_built_ignores_out (env : Env) (d : FormatDict)
    (ft : FileType) (target : String) (inFiles : List String)
    (o o' : Option Dir) (F : Option Dir)
    (h : buildCat env d ft target inFiles o = (F, .built)) :
    buildCat env d ft target inFiles o' = (F, .built) := by
  rcases hnr : pyqt_version target with _ | nr
  · rw [buildCat_unknown env d ft target inFiles o hnr] at h
    have := congrArg Prod.snd h
    simp at this
  · by_cases hw : env.whichOk (toolBase ft ++ nr) = false
    · rw [buildCat_skip_tool env d ft target nr inFiles o hnr hw] at h
      have := congrArg Prod.snd h
      simp at this
    · by_cases hempty : inFiles.filter (fun f => globMatch ft f) = []
      · rw [buildCat_skip_empty env d ft target nr inFiles o hnr hempty] at h
        have := congrArg Prod.snd h
        simp at this
      · have htool : env.whichOk (toolBase ft ++ nr) = true := by
          cases hx : env.whichOk (toolBase ft ++ nr) <;> simp_all
        rcases hloop : buildLoop env (toolBase ft ++ nr) (hasPostBuild ft)
            (typeSuffix ft) (inFiles.filter (fun f => globMatch ft f)) [] []
          with ⟨Fl, Ml, err⟩
        cases err with
        | some e =>
          rw [buildCat_errored env d ft target nr inFiles o Fl Ml e hnr htool
            hempty hloop] at h
          have := congrArg Prod.snd h
          simp at this
        | none =>
          rw [buildCat_built env d ft target nr inFiles o Fl Ml hnr htool
            hempty hloop] at h
          rw [buildCat_built env d ft target nr inFiles o' Fl Ml hnr htool
            hempty hloop]
          exact h

/-- Re-running one orchestrator step on its own error-free result changes
nothing. -/
theorem stepCat_idem (env : Env) (d : FormatDict) (target : String)
    (ft : FileType) (i : Option (List String)) (o o1 : Option Dir)
    (h : stepCat env d target ft i o = (o1, none)) :
    stepCat env d target ft i o1 = (o1, none) := by
  cases i with
  | none => rfl
  | some files =>
    rcases hb : buildCat env d ft target files o with ⟨ob, r⟩
    cases r with
    | skipped =>
      obtain ⟨_, hall⟩ := buildCat_skipped_out env d ft target files o ob hb
      have h1 : ob = o1 := by
        have hround : stepCat env d target ft (some files) o = (ob, none) := by
          simp only [stepCat, hb]
        rw [hround] at h
        exact congrArg Prod.fst h
      rw [← h1]
      simp only [stepCat, hall ob]
    | built =>
      simp only [stepCat, hb] at h
      have ho1 : o1 = ob := (congrArg Prod.fst h).symm
      subst ho1
      simp only [stepCat,
        buildCat_built_ignores_out env d ft target files o o1 o1 hb]
    | errored e =>
      simp only [stepCat, hb] at h
      have := congrArg Prod.snd h
      simp at this

/-- C8: running a build pass a second time with identical input files,
identical configuration and a fixed current date (the same format context)
reproduces the first pass's filesystem exactly — in particular every
generated aggregator file's content is byte-identical across the two runs —
because a pass's generated output is a function of the discovered module
list and the format context only, never of the previous output directory
contents. -/
theorem build_idempotent (env : Env) (d : FormatDict) (target : String)
    (fs fs1 : FileSys) (h : build env d target fs = (fs1, none)) :
    build env d target fs1 = (fs1, none) := by
  rcases h1 : stepCat env d target .forms fs.formsIn fs.formsOut with ⟨o1, e1⟩
  cases e1 with
  | some e =>
    simp only [build, h1] at h
    have := congrArg Prod.snd h
    simp at this
  | none =>
    rcases h2 : stepCat env d target .resources fs.resourcesIn fs.resourcesOut
      with ⟨o2, e2⟩
    cases e2 with
    | some e =>
      simp only [build, h1, h2] at h
      have := congrArg Prod.snd h
      simp at this
    | none =>
      simp only [build, h1, h2] at h
      have hfs1 : fs1 = { fs with formsOut := o1, resourcesOut := o2 } :=
        (congrArg Prod.fst h).symm
      subst hfs1
      have h1' : stepCat env d target .forms fs.formsIn o1 = (o1, none) :=
        stepCat_idem env d target .forms fs.formsIn fs.formsOut o1 h1
      have h2' : stepCat env d target .resources fs.resourcesIn o2 =
          (o2, none) :=
        stepCat_idem env d target .resources fs.resourcesIn fs.resourcesOut
          o2 h2
      simp only [build, h1', h2']

/-- C2: when the target is known, the tool is found and the glob yields a
non-empty, well-formed input set (dot-free module names that are pairwise
distinct and differ from `__init__`), `_build` deletes and recreates the
output directory and succeeds: the resulting directory holds exactly one
compiled file per matched input — named stem + category suffix with a `.py`
extension, in discovery order — plus exactly one aggregator `__init__.py`;
the result never depends on the previous output directory contents (no file
of an earlier pass survives), and the aggregator's module list matches the
files present on disk. -/
theorem build_pass_output (env : Env) (d : FormatDict) (ft : FileType)
    (target nr : String) (inFiles : List String) (outDir : Option Dir)
    (hnr : pyqt_version target = some nr)
    (htool : env.whichOk (toolBase ft ++ nr) = true)
    (hne : inFiles.filter (fun f => globMatch ft f) ≠ [])
    (hok : ∀ f ∈ inFiles.filter (fun f => globMatch ft f),
      (env.compile (toolBase ft ++ nr) f).isSome = true)
    (hdot : ∀ f ∈ inFiles.filter (fun f => globMatch ft f),
      '.' ∉ (stem f ++ typeSuffix ft).data)
    (hstems : ((inFiles.filter (fun f => globMatch ft f)).map
      (fun f => stem f ++ typeSuffix ft)).Nodup)
    (hinit : ∀ f ∈ inFiles.filter (fun f => globMatch ft f),
      stem f ++ typeSuffix ft ≠ "__init__") :
    buildCat env d ft target inFiles outDir =
      (some (expectedFiles env (toolBase ft ++ nr) ft
        (inFiles.filter (fun f => globMatch ft f)) d), .built) ∧
    (expectedFiles env (toolBase ft ++ nr) ft
        (inFiles.filter (fun f => globMatch ft f)) d).map Prod.fst =
      (inFiles.filter (fun f => globMatch ft f)).map
        (fun f => stem f ++ typeSuffix ft ++ ".py") ++ ["__init__.py"] ∧
    (expectedFiles env (toolBase ft ++ nr) ft
        (inFiles.filter (fun f => globMatch ft f)) d).length =
      (inFiles.filter (fun f => globMatch ft f)).length + 1 ∧
    ∀ m ∈ (inFiles.filter (fun f => globMatch ft f)).map
        (fun f => stem f ++ typeSuffix ft),
      m ++ ".py" ∈ (expectedFiles env (toolBase ft ++ nr) ft
        (inFiles.filter (fun f => globMatch ft f)) d).map Prod.fst := by
  have hpy : ("__init__" : String) ++ ".py" = "__init__.py" := by decide
  have houtpair :
      (inFiles.filter (fun f => globMatch ft f)).map
        (fun f => (outName (typeSuffix ft) f,
          finalContent env (toolBase ft ++ nr) (hasPostBuild ft) f)) =
      (inFiles.filter (fun f => globMatch ft f)).map
        (fun f => (stem f ++ typeSuffix ft ++ ".py",
          finalContent env (toolBase ft ++ nr) (hasPostBuild ft) f)) :=
    List.map_congr_left (fun f hf => by rw [outName_no_dot (hdot f hf)])
  have hnamemap : (inFiles.filter (fun f => globMatch ft f)).map
      (outName (typeSuffix ft)) =
      ((inFiles.filter (fun f => globMatch ft f)).map
        (fun f => stem f ++ typeSuffix ft)).map (fun s => s ++ ".py") := by
    rw [List.map_map]
    exact List.map_congr_left (fun f hf => by
      simp only [Function.comp]
      rw [outName_no_dot (hdot f hf)])
  have hndout : ((inFiles.filter (fun f => globMatch ft f)).map
      (outName (typeSuffix ft))).Nodup := by
    rw [hnamemap]
    exact hstems.map (fun a b hab => string_append_right_cancel hab)
  have hloop := buildLoop_append env (toolBase ft ++ nr) (hasPostBuild ft)
    (typeSuffix ft) (inFiles.filter (fun f => globMatch ft f)) [] [] []
    hok hndout (fun f _ => by simp)
  simp only [List.append_nil, List.nil_append, buildLoop] at hloop
  have hfreshinit : "__init__.py" ∉
      ((inFiles.filter (fun f => globMatch ft f)).map
        (fun f => (outName (typeSuffix ft) f,
          finalContent env (toolBase ft ++ nr) (hasPostBuild ft) f))).map
        Prod.fst := by
    rw [List.map_map]
    intro hmem
    obtain ⟨f, hf, heq⟩ := List.mem_map.mp hmem
    simp only [Function.comp] at heq
    rw [outName_no_dot (hdot f hf)] at heq
    exact hinit f hf (string_append_right_cancel (heq.trans hpy.symm))
  have hcat := buildCat_built env d ft target nr inFiles outDir _ _ hnr htool
    hne hloop
  rw [writeFile_fresh hfreshinit] at hcat
  refine ⟨?_, ?_, ?_, ?_⟩
  · rw [hcat, houtpair]
    simp [expectedFiles]
  · simp [expectedFiles]
  · simp [expectedFiles]
  · intro m hm
    obtain ⟨f, hf, rfl⟩ := List.mem_map.mp hm
    simp only [expectedFiles, List.map_append, List.map_map]
    refine List.mem_append_left _ ?_
    have := List.mem_map_of_mem
      (Prod.fst ∘ fun f => (stem f ++ typeSuffix ft ++ ".py",
        finalContent env (toolBase ft ++ nr) (hasPostBuild ft) f)) hf
    simpa using this

/-- C6: a failing compiler subprocess (non-zero exit) on some input file is
fatal for that category's build: the error propagates and aborts the loop, so
the freshly recreated output directory holds exactly the files compiled
before the failure — no later input file is compiled, the failed file's
module never appears on disk, and no aggregator `__init__.py` is written. -/
theorem shell_failure_aborts (env : Env) (d : FormatDict) (ft : FileType)
    (target nr : String) (inFiles : List String) (outDir : Option Dir)
    (pre post2 : List String) (f : String)
    (hnr : pyqt_version target = some nr)
    (htool : env.whichOk (toolBase ft ++ nr) = true)
    (hsplit : inFiles.filter (fun g => globMatch ft g) = pre ++ f :: post2)
    (hok : ∀ g ∈ pre, (env.compile (toolBase ft ++ nr) g).isSome = true)
    (hfail : env.compile (toolBase ft ++ nr) f = none)
    (hdot : ∀ g ∈ pre ++ f :: post2, '.' ∉ (stem g ++ typeSuffix ft).data)
    (hstems : ((pre ++ f :: post2).map
      (fun g => stem g ++ typeSuffix ft)).Nodup)
    (hinit : ∀ g ∈ pre ++ f :: post2, stem g ++ typeSuffix ft ≠ "__init__") :
    buildCat env d ft target inFiles outDir =
      (some (pre.map (fun g => (stem g ++ typeSuffix ft ++ ".py",
        finalContent env (toolBase ft ++ nr) (hasPostBuild ft) g))),
       .errored .shellFailed) ∧
    "__init__.py" ∉ (pre.map (fun g => (stem g ++ typeSuffix ft ++ ".py",
      finalContent env (toolBase ft ++ nr) (hasPostBuild ft) g))).map
      Prod.fst ∧
    stem f ++ typeSuffix ft ++ ".py" ∉
      (pre.map (fun g => (stem g ++ typeSuffix ft ++ ".py",
        finalContent env (toolBase ft ++ nr) (hasPostBuild ft) g))).map
        Prod.fst ∧
    ∀ g ∈ post2, stem g ++ typeSuffix ft ++ ".py" ∉
      (pre.map (fun g => (stem g ++ typeSuffix ft ++ ".py",
        finalContent env (toolBase ft ++ nr) (hasPostBuild ft) g))).map
        Prod.fst := by
  have hpy : ("__init__" : String) ++ ".py" = "__init__.py" := by decide
  have hdotpre : ∀ g ∈ pre, '.' ∉ (stem g ++ typeSuffix ft).data :=
    fun g hg => hdot g (List.mem_append_left _ hg)
  have hstems' : (pre.map (fun g => stem g ++ typeSuffix ft)).Nodup ∧
      ((f :: post2).map (fun g => stem g ++ typeSuffix ft)).Nodup ∧
      (pre.map (fun g => stem g ++ typeSuffix ft)).Disjoint
        ((f :: post2).map (fun g => stem g ++ typeSuffix ft)) := by
    rw [List.map_append] at hstems
    exact List.nodup_append.mp hstems
  have hnamemap : pre.map (outName (typeSuffix ft)) =
      (pre.map (fun g => stem g ++ typeSuffix ft)).map (fun s => s ++ ".py") := by
    rw [List.map_map]
    exact List.map_congr_left (fun g hg => by
      simp only [Function.comp]
      rw [outName_no_dot (hdotpre g hg)])
  have hndout : (pre.map (outName (typeSuffix ft))).Nodup := by
    rw [hnamemap]
    exact hstems'.1.map (fun a b hab => string_append_right_cancel hab)
  have hnames : (pre.map (fun g => (outName (typeSuffix ft) g,
      finalContent env (toolBase ft ++ nr) (hasPostBuild ft) g))).map
        Prod.fst =
      pre.map (fun g => stem g ++ typeSuffix ft ++ ".py") := by
    rw [List.map_map]
    exact List.map_congr_left (fun g hg => by
      simp only [Function.comp]
      rw [outName_no_dot (hdotpre g hg)])
  have hmemnames : ∀ x : String,
      x ++ ".py" ∈ pre.map (fun g => stem g ++ typeSuffix ft ++ ".py") →
      x ∈ pre.map (fun g => stem g ++ typeSuffix ft) := by
    intro x hx
    have : pre.map (fun g => stem g ++ typeSuffix ft ++ ".py") =
        (pre.map (fun g => stem g ++ typeSuffix ft)).map
          (fun s => s ++ ".py") := by rw [List.map_map]; rfl
    rw [this] at hx
    obtain ⟨s, hs, heq⟩ := List.mem_map.mp hx
    rwa [← string_append_right_cancel heq]
  have hloop := buildLoop_append env (toolBase ft ++ nr) (hasPostBuild ft)
    (typeSuffix ft) pre (f :: post2) [] [] hok hndout (fun g _ => by simp)
  have hstep : buildLoop env (toolBase ft ++ nr) (hasPostBuild ft)
      (typeSuffix ft) (pre ++ f :: post2) [] [] =
      (pre.map (fun g => (outName (typeSuffix ft) g,
        finalContent env (toolBase ft ++ nr) (hasPostBuild ft) g)),
       pre.map (fun g => stem g ++ typeSuffix ft),
       some .shellFailed) := by
    rw [hloop]
    simp only [buildLoop, hfail, List.nil_append]
  have hne : inFiles.filter (fun g => globMatch ft g) ≠ [] := by
    rw [hsplit]
    exact fun hc => absurd (List.append_eq_nil.mp hc).2 (by simp)
  have hcat := buildCat_errored env d ft target nr inFiles outDir _ _
    .shellFailed hnr htool hne (by rw [hsplit]; exact hstep)
  have hpairmap : pre.map (fun g => (outName (typeSuffix ft) g,
      finalContent env (toolBase ft ++ nr) (hasPostBuild ft) g)) =
      pre.map (fun g => (stem g ++ typeSuffix ft ++ ".py",
        finalContent env (toolBase ft ++ nr) (hasPostBuild ft) g)) :=
    List.map_congr_left (fun g hg => by rw [outName_no_dot (hdotpre g hg)])
  rw [hpairmap] at hcat
  have hnames' : (pre.map (fun g => (stem g ++ typeSuffix ft ++ ".py",
      finalContent env (toolBase ft ++ nr) (hasPostBuild ft) g))).map
        Prod.fst =
      pre.map (fun g => stem g ++ typeSuffix ft ++ ".py") := by
    rw [List.map_map]
    rfl
  refine ⟨hcat, ?_, ?_, ?_⟩
  · rw [hnames']
    intro hmem
    have hx := hmemnames "__init__" (by rwa [hpy])
    obtain ⟨g, hg, heq⟩ := List.mem_map.mp hx
    exact hinit g (List.mem_append_left _ hg) heq
  · rw [hnames']
    intro hmem
    have hx := hmemnames (stem f ++ typeSuffix ft) hmem
    exact hstems'.2.2 hx (List.mem_map_of_mem _ (List.mem_cons_self _ _))
  · intro g hg
    rw [hnames']
    intro hmem
    have hx := hmemnames (stem g ++ typeSuffix ft) hmem
    exact hstems'.2.2 hx
      (List.mem_map_of_mem _ (List.mem_cons_of_mem _ hg))

theorem shell_failure_aborts_witness :
    buildCat sampleEnvFail sampleDict .forms "anki21" ["a.ui", "b.ui", "c.ui"]
        none =
      (some (["a.ui"].map (fun g => (stem g ++ typeSuffix .forms ++ ".py",
        finalContent sampleEnvFail (toolBase .forms ++ "5")
          (hasPostBuild .forms) g))),
       .errored .shellFailed) :=
  (shell_failure_aborts sampleEnvFail sampleDict .forms "anki21" "5"
    ["a.ui", "b.ui", "c.ui"] none ["a.ui"] ["c.ui"] "b.ui"
    (by decide) rfl (by decide) (by decide) (by decide) (by decide)
    (by decide) (by decide)).1

theorem build_pass_output_witness :
    buildCat sampleEnv sampleDict .forms "anki21" ["a.ui"] none =
      (some (expectedFiles sampleEnv (toolBase .forms ++ "5") .forms
        (["a.ui"].filter (fun f => globMatch .forms f)) sampleDict),
       .built) :=
  (build_pass_output sampleEnv sampleDict .forms "anki21" "5" ["a.ui"] none
    (by decide) rfl (by decide) (by decide) (by decide) (by decide)
    (by decide)).1

theorem build_idempotent_witness :
    build sampleEnv sampleDict "anki21"
        (build sampleEnv sampleDict "anki21" sampleFS).1 =
      ((build sampleEnv sampleDict "anki21" sampleFS).1, none) :=
  build_idempotent sampleEnv sampleDict "anki21" sampleFS
    (build sampleEnv sampleDict "anki21" sampleFS).1
    (Prod.ext_iff.mpr ⟨rfl, by decide⟩)

end Aab
